import Mathlib

/-!
Shallow embedding of the core measurement pipeline of `capnograph-ui.py`:
breath segmentation (`volBreath`), CO2 integration and the VE/VCO2 metric
(`veVco2`), peak CO2 tracking (`co2Max`) and the session reset (`resetAvg`).

Python floats are modelled as rationals; `collections.deque(maxlen = cap)`
is modelled by lists together with `dequeAppend cap`; Python's
`ZeroDivisionError` on float division by zero is modelled by `Except`.
Only the state fields the pipeline reads or writes are embedded; the
graph-display deques (`flowX`, `flowY`, `coX`, `coY`, `integX`, `integY`,
`veVco2X`, `veVco2Y`) and file I/O are external sinks that never feed back
into the computation.
-/

/-- Append to a bounded deque of capacity `cap` (Python
`collections.deque` with `maxlen = cap`): the new element goes to the
back, and elements are trimmed from the front so that at most `cap`
remain. For `cap ≥ 1` this is exactly Python's behaviour. -/
def dequeAppend (cap : ℕ) (xs : List ℚ) (x : ℚ) : List ℚ :=
  (xs.drop (xs.length + 1 - cap)) ++ [x]

/-- Python `xs[-1]` on a nonempty deque (with `0` as junk default). -/
def lastD (xs : List ℚ) : ℚ := xs.getLast?.getD 0

/-- Python `xs[-2]` on a deque of at least two elements (with `0` as junk
default). -/
def sndLastD (xs : List ℚ) : ℚ := xs.dropLast.getLast?.getD 0

/-- The per-session mutable state of `MainUI` used by the pipeline
(`__init__`, lines 211-236). Timestamps are rational epoch seconds. -/
structure UIState where
  floTrig : ℚ
  coTrig : ℚ
  integratedCo : ℚ
  integratedCoPts : ℕ
  integratedCoTime : List ℚ
  veVco2Val : List ℚ
  maxCo2Val : ℚ
  volBreathsQ : List ℚ
  curVol : List ℚ
  volFlag : Bool
  deriving DecidableEq, Repr

/-- `MainUI.__init__` with construction time `t0`: `floTrig = 10.0`,
`coTrig = 20000.0`, `integratedCoTime = deque([now, now], 5)`,
`veVco2Val = deque([0], 500)`, `volBreathsQ = deque([], 100)`,
`curVol = deque([0], 500)`, `volFlag = False`. -/
def initState (t0 : ℚ) : UIState where
  floTrig := 10
  coTrig := 20000
  integratedCo := 0
  integratedCoPts := 0
  integratedCoTime := [t0, t0]
  veVco2Val := [0]
  maxCo2Val := 0
  volBreathsQ := []
  curVol := [0]
  volFlag := false

/-- Lines 947-951 of `veVco2`: the integral update for one sample of value
`n` at `elapsed` seconds after the previous integrated sample. If
`elapsed` is outside the tolerance band (strictly above `0.06` or strictly
below `0.04`), the nominal `0.05` s interval is used instead of the
measured delta. -/
def integStep (integratedCo : ℚ) (n : ℚ) (elapsed : ℚ) : ℚ :=
  if elapsed > 6/100 ∨ elapsed < 4/100 then
    integratedCo + (n / 1000000) * (5/100)
  else
    integratedCo + (n / 1000000) * elapsed

/-- The error Python raises on float division by zero in
`1/(self.integratedCo/(self.integratedCoPts*.05))`. -/
inductive CoErr where
  | divisionByZero
  deriving DecidableEq, Repr

/-- `veVco2` (lines 940-957), called with the current time `t` and the CO2
reading `n`. If `n > coTrig`: append `t` to the timestamp deque, update
the integral (`integStep` with the measured delta of the last two
timestamps), increment the point count, and append / return
`1 / (integratedCo / (pts * 0.05))` — which raises `ZeroDivisionError`
when the updated integral is zero (the divisor `pts * 0.05` is nonzero
since `pts ≥ 1` there). Otherwise append and return `0`, touching nothing
else. -/
def veVco2 (s : UIState) (t : ℚ) (n : ℚ) : Except CoErr (UIState × ℚ) :=
  if n > s.coTrig then
    let times := dequeAppend 5 s.integratedCoTime t
    let integ := integStep s.integratedCo n (lastD times - sndLastD times)
    let pts := s.integratedCoPts + 1
    if integ = 0 then
      Except.error CoErr.divisionByZero
    else
      let rat := 1 / (integ / ((pts : ℚ) * (5/100)))
      let s2 := { s with
        integratedCo := integ
        integratedCoPts := pts
        integratedCoTime := times
        veVco2Val := dequeAppend 500 s.veVco2Val rat }
      Except.ok (s2, rat)
  else
    Except.ok ({ s with veVco2Val := dequeAppend 500 s.veVco2Val 0 }, 0)

/-- `co2Max` (lines 959-960): the body is `pass` (the peak/volume logic
below it is a commented-out string literal), so the state is returned
unchanged — in particular `maxCo2Val` is never updated from a sample. -/
def co2Max (s : UIState) (n : ℚ) : UIState := s

/-- `resetAvg` (lines 609-622): zeroes `integratedCo`, `integratedCoPts`
and `maxCo2Val`, empties `volBreathsQ`, clears `volFlag`. It does NOT
touch `curVol`, `integratedCoTime` or `veVco2Val`. -/
def resetAvg (s : UIState) : UIState :=
  { s with
    integratedCo := 0
    integratedCoPts := 0
    maxCo2Val := 0
    volBreathsQ := []
    volFlag := false }

/-- `volBreath` (lines 996-1022), called with the flow reading `n`.
Returns the updated state and the emitted breath volume, if this sample
closed a breath. Note the source's two consecutive `if` statements (not
`elif`): a sample that opens a breath falls through into the second block
and its contribution is appended twice. -/
def volBreath (s : UIState) (n : ℚ) : UIState × Option ℚ :=
  let s1 :=
    if s.volFlag = false then
      if n ≥ s.floTrig then
        { s with
          curVol := dequeAppend 500 s.curVol (n * (5/6000))
          volFlag := true }
      else s
    else s
  if s1.volFlag = true then
    if n ≥ s1.floTrig then
      ({ s1 with curVol := dequeAppend 500 s1.curVol (n * (5/6000)) }, none)
    else
      ({ s1 with
          volBreathsQ := dequeAppend 100 s1.volBreathsQ s1.curVol.sum
          curVol := []
          volFlag := false }, some s1.curVol.sum)
  else
    (s1, none)

/-- Deliver a sequence of flow readings to `volBreath`; collects the
emitted breath volumes in order. -/
def runFlow (s : UIState) (ns : List ℚ) : UIState × List ℚ :=
  match ns with
  | [] => (s, [])
  | n :: rest =>
    let step := volBreath s n
    let next := runFlow step.1 rest
    (next.1, step.2.toList ++ next.2)

/-- Deliver a sequence of timestamped CO2 readings to `veVco2`; collects
the returned per-sample metrics in order. Stops at the first raised
error, as the Python exception would. -/
def runCo (s : UIState) (tns : List (ℚ × ℚ)) : Except CoErr (UIState × List ℚ) :=
  match tns with
  | [] => Except.ok (s, [])
  | (t, n) :: rest =>
    match veVco2 s t n with
    | Except.error e => Except.error e
    | Except.ok (s2, r) =>
      match runCo s2 rest with
      | Except.error e => Except.error e
      | Except.ok (s3, rs) => Except.ok (s3, r :: rs)

/-- The average breath volume shown on the `label_vol` display: line 1021
shows `sum(volBreathsQ)/len(volBreathsQ)` after a close (the queue is
nonempty there), and line 619 of `resetAvg` shows `0` for the emptied
queue. -/
def avgOfQueue (q : List ℚ) : ℚ :=
  if q = [] then 0 else q.sum / q.length

/-- Timestamped CO2 samples of constant value `V`, uniformly spaced
`0.05` s apart, the `i`-th sample (0-based) at `t0 + (k + i + 1) * 0.05`. -/
def uniformSeqFrom (t0 V : ℚ) (k N : ℕ) : List (ℚ × ℚ) :=
  (List.range N).map (fun i => (t0 + ((k + i + 1 : ℕ) : ℚ) * (1/20), V))

/-- `N` CO2 samples of constant value `V` at `t0 + 0.05, t0 + 0.10, …`. -/
def uniformSeq (t0 V : ℚ) (N : ℕ) : List (ℚ × ℚ) :=
  uniformSeqFrom t0 V 0 N

/-! ### Deque helper lemmas -/

/-- The element just appended is the back of the deque. -/
theorem lastD_dequeAppend (cap : ℕ) (xs : List ℚ) (x : ℚ) :
    lastD (dequeAppend cap xs x) = x := by
  simp [lastD, dequeAppend, List.getLast?_concat]

/-- Dropping fewer elements than the length preserves the last element. -/
theorem getLast?_drop_of_lt (xs : List ℚ) : ∀ k, k < xs.length →
    (xs.drop k).getLast? = xs.getLast? := by
  induction xs with
  | nil => intro k h; simp at h
  | cons a rest ih =>
    intro k h
    cases k with
    | zero => rfl
    | succ k2 =>
      cases rest with
      | nil => simp at h
      | cons b t =>
        rw [List.drop_succ_cons,
          ih k2 (by simp only [List.length_cons] at h ⊢; omega),
          List.getLast?_cons_cons]

/-- For capacity at least two, the second-to-back of the deque after an
append is the previous back. -/
theorem sndLastD_dequeAppend (cap : ℕ) (hcap : 2 ≤ cap) (xs : List ℚ)
    (hxs : xs ≠ []) (x : ℚ) :
    sndLastD (dequeAppend cap xs x) = lastD xs := by
  have hpos : 0 < xs.length := List.length_pos.mpr hxs
  have hlt : xs.length + 1 - cap < xs.length := by omega
  simp only [sndLastD, dequeAppend, List.dropLast_concat, lastD]
  rw [getLast?_drop_of_lt xs _ hlt]

/-! ### Claim theorems -/

/-- C1 (code bug evidence): on the flow sequence `[15, 5]` with the default
trigger `10`, exactly one breath is emitted, but its volume is `1/40`
(= 0.025): the opening sample's contribution is appended twice by the two
consecutive `if` blocks of `volBreath`, while the specified sum
`Σ value_i * 5/6000` over the single at/above-trigger sample is
`15 * 5/6000 = 1/80` (= 0.0125). -/
theorem volBreath_double_counts_opening :
    (runFlow (initState 0) [15, 5]).2 = [1/40] ∧
    ([(15 : ℚ)].map (fun v => v * (5/6000))).sum = 1/80 ∧
    ((1 : ℚ)/40 = 1/80 → False) := by
  refine ⟨?_, by norm_num, by norm_num⟩
  norm_num [runFlow, volBreath, initState, dequeAppend]

/-- C3: a CO2 sample at or below the trigger returns 0 and leaves the
entire integration state (cumulative integral, point count, timestamp
history) untouched; in particular dropping below the trigger never resets
the integral. -/
theorem veVco2_below_trigger_noop (s : UIState) (t n : ℚ) (h : n ≤ s.coTrig) :
    ∃ s2, veVco2 s t n = Except.ok (s2, 0) ∧
      s2.integratedCo = s.integratedCo ∧
      s2.integratedCoPts = s.integratedCoPts ∧
      s2.integratedCoTime = s.integratedCoTime ∧
      s2.maxCo2Val = s.maxCo2Val := by
  unfold veVco2
  rw [if_neg (not_lt.mpr h)]
  exact ⟨_, rfl, rfl, rfl, rfl, rfl⟩

/-- Witness for C3 at a concrete below-trigger sample. -/
theorem veVco2_below_trigger_noop_witness :
    ∃ s2, veVco2 (initState 0) 1 100 = Except.ok (s2, 0) ∧
      s2.integratedCo = (initState 0).integratedCo ∧
      s2.integratedCoPts = (initState 0).integratedCoPts ∧
      s2.integratedCoTime = (initState 0).integratedCoTime ∧
      s2.maxCo2Val = (initState 0).maxCo2Val :=
  veVco2_below_trigger_noop (initState 0) 1 100 (by norm_num [initState])

/-- C4: for an integrated sample, the integral contribution uses the
measured elapsed time exactly when it lies in the `[0.04, 0.06]` band,
and the nominal `0.05` interval otherwise; the elapsed time is measured
against the previous timestamp in the two-slot history. -/
theorem veVco2_jitter_band (s : UIState) (t n : ℚ) (hn : n > s.coTrig)
    (hne : s.integratedCoTime ≠ []) :
    (∀ s2 r, veVco2 s t n = Except.ok (s2, r) →
      s2.integratedCo = integStep s.integratedCo n (t - lastD s.integratedCoTime)) ∧
    (∀ i v e, e < 4/100 ∨ e > 6/100 →
      integStep i v e = i + (v / 1000000) * (5/100)) ∧
    (∀ i v e, 4/100 ≤ e → e ≤ 6/100 → integStep i v e = i + (v / 1000000) * e) := by
  refine ⟨?_, ?_, ?_⟩
  · intro s2 r hok
    simp only [veVco2] at hok
    rw [if_pos hn, lastD_dequeAppend, sndLastD_dequeAppend 5 (by norm_num) _ hne]
      at hok
    by_cases h0 : integStep s.integratedCo n (t - lastD s.integratedCoTime) = 0
    · rw [if_pos h0] at hok
      exact absurd hok (by simp)
    · rw [if_neg h0] at hok
      simp only [Except.ok.injEq, Prod.mk.injEq] at hok
      rw [← hok.1]
  · intro i v e he
    unfold integStep
    rw [if_pos (Or.symm he)]
  · intro i v e h1 h2
    unfold integStep
    rw [if_neg (by push_neg; exact ⟨h2, h1⟩)]

/-- Witness for C4: a `0.10` s delta (outside tolerance) contributes
exactly what the nominal `0.05` s interval would. -/
theorem veVco2_jitter_band_witness :
    integStep 0 50000 (10/100) = 0 + ((50000 : ℚ) / 1000000) * (5/100) :=
  (veVco2_jitter_band (initState 0) 1 50000 (by norm_num [initState])
    (by simp [initState])).2.1 0 50000 (10/100) (by norm_num)

/-- C5: whenever the above-trigger branch computes the ratio with a zero
cumulative integral, the outcome is the division-by-zero error — never a
silently returned zero, so it is distinguishable from a legitimate zero
return. -/
theorem veVco2_zero_integral_raises (s : UIState) (t n : ℚ) (hn : n > s.coTrig)
    (h0 : integStep s.integratedCo n
        (lastD (dequeAppend 5 s.integratedCoTime t) -
          sndLastD (dequeAppend 5 s.integratedCoTime t)) = 0) :
    veVco2 s t n = Except.error CoErr.divisionByZero ∧
    ∀ s2, veVco2 s t n ≠ Except.ok (s2, 0) := by
  have h : veVco2 s t n = Except.error CoErr.divisionByZero := by
    simp only [veVco2]
    rw [if_pos hn, if_pos h0]
  exact ⟨h, fun s2 => by rw [h]; simp⟩

/-- Witness for C5: with the trigger configured to `-1`, a sample of value
`0` reaches the ratio computation with a zero integral and raises. -/
theorem veVco2_zero_integral_raises_witness :
    veVco2 { initState 0 with coTrig := -1 } 1 0 = Except.error CoErr.divisionByZero ∧
    ∀ s2, veVco2 { initState 0 with coTrig := -1 } 1 0 ≠ Except.ok (s2, 0) :=
  veVco2_zero_integral_raises { initState 0 with coTrig := -1 } 1 0
    (by norm_num [initState])
    (by norm_num [integStep, dequeAppend, lastD, sndLastD, initState])

/-- C6 (code bug evidence): `co2Max` is a bare `pass`, so processing the
CO2 sample `50000` from a fresh session leaves `maxCo2Val` at `0`, not at
the maximum value `50000` seen since reset. -/
theorem co2Max_noop_peak_zero :
    co2Max (initState 0) 50000 = initState 0 ∧
    (co2Max (initState 0) 50000).maxCo2Val = 0 ∧ ((0 : ℚ) = 50000 → False) :=
  ⟨rfl, rfl, by norm_num⟩

/-- C9 (counterexample): a CO2 sample exactly at the trigger
(`20000 = coTrig`) is NOT integrated: the comparison on line 942 is
strict (`n > self.coTrig`), so the sample returns 0 and the point count
and integral stay at 0 instead of being incremented. -/
theorem veVco2_at_trigger_skipped :
    veVco2 (initState 0) (1/20) 20000 =
      Except.ok ({ initState 0 with veVco2Val := [0, 0] }, 0) ∧
    (initState 0).coTrig = 20000 ∧
    ({ initState 0 with veVco2Val := [0, 0] } : UIState).integratedCoPts = 0 ∧
    ({ initState 0 with veVco2Val := [0, 0] } : UIState).integratedCo = 0 := by
  refine ⟨?_, rfl, rfl, rfl⟩
  norm_num [veVco2, dequeAppend, initState]

/-- C9 (amended): a CO2 sample whose value equals `coTrig` exactly is
excluded from the accumulation window: it returns 0 and leaves the
integral, point count and timestamp history unchanged; only strictly
above-trigger samples are integrated. -/
theorem veVco2_at_trigger_noop (s : UIState) (t n : ℚ) (h : n = s.coTrig) :
    ∃ s2, veVco2 s t n = Except.ok (s2, 0) ∧
      s2.integratedCo = s.integratedCo ∧
      s2.integratedCoPts = s.integratedCoPts ∧
      s2.integratedCoTime = s.integratedCoTime := by
  unfold veVco2
  rw [if_neg (by rw [h]; exact lt_irrefl _)]
  exact ⟨_, rfl, rfl, rfl, rfl⟩

/-- Witness for C9's amended claim at the trigger value itself. -/
theorem veVco2_at_trigger_noop_witness :
    ∃ s2, veVco2 (initState 0) (1/20) 20000 = Except.ok (s2, 0) ∧
      s2.integratedCo = (initState 0).integratedCo ∧
      s2.integratedCoPts = (initState 0).integratedCoPts ∧
      s2.integratedCoTime = (initState 0).integratedCoTime :=
  veVco2_at_trigger_noop (initState 0) (1/20) 20000 (by norm_num [initState])

/-- Peeling the first sample off a uniformly spaced sequence. -/
theorem uniformSeqFrom_succ (t0 V : ℚ) (k N : ℕ) :
    uniformSeqFrom t0 V k (N + 1) =
      (t0 + ((k : ℚ) + 1) * (1/20), V) :: uniformSeqFrom t0 V (k + 1) N := by
  simp only [uniformSeqFrom, List.range_succ_eq_map, List.map_cons, List.map_map]
  congr 1
  · simp only [Prod.mk.injEq]
    refine ⟨by push_cast; ring, trivial⟩
  · apply List.map_congr_left
    intro i _
    simp only [Function.comp_apply, Prod.mk.injEq]
    refine ⟨?_, trivial⟩
    push_cast
    ring

/-- One `veVco2` step on a constant above-trigger value at nominal spacing
preserves the closed-form invariant and returns `10^6 / V`. -/
theorem veVco2_uniform_step (c V t0 : ℚ) (hV0 : 0 < V) (hV : c < V) (k : ℕ)
    (s : UIState) (hTrig : s.coTrig = c)
    (hInt : s.integratedCo = (k : ℚ) * (V / 20000000))
    (hPts : s.integratedCoPts = k)
    (hLast : lastD s.integratedCoTime = t0 + (k : ℚ) * (1/20))
    (hne : s.integratedCoTime ≠ []) :
    ∃ s2, veVco2 s (t0 + ((k : ℚ) + 1) * (1/20)) V = Except.ok (s2, 1000000 / V) ∧
      s2.coTrig = c ∧
      s2.integratedCo = ((k : ℚ) + 1) * (V / 20000000) ∧
      s2.integratedCoPts = k + 1 ∧
      lastD s2.integratedCoTime = t0 + ((k : ℚ) + 1) * (1/20) ∧
      s2.integratedCoTime ≠ [] := by
  have hk1 : (0 : ℚ) < (k : ℚ) + 1 := by positivity
  have hVne : V ≠ 0 := ne_of_gt hV0
  have helapsed : lastD (dequeAppend 5 s.integratedCoTime (t0 + ((k : ℚ) + 1) * (1/20))) -
      sndLastD (dequeAppend 5 s.integratedCoTime (t0 + ((k : ℚ) + 1) * (1/20))) = 1/20 := by
    rw [lastD_dequeAppend, sndLastD_dequeAppend 5 (by norm_num) _ hne, hLast]
    ring
  have hinteg : integStep s.integratedCo V
      (lastD (dequeAppend 5 s.integratedCoTime (t0 + ((k : ℚ) + 1) * (1/20))) -
        sndLastD (dequeAppend 5 s.integratedCoTime (t0 + ((k : ℚ) + 1) * (1/20)))) =
      ((k : ℚ) + 1) * (V / 20000000) := by
    rw [helapsed, integStep, if_neg (by norm_num), hInt]
    ring
  have hne0 : ((k : ℚ) + 1) * (V / 20000000) ≠ 0 :=
    mul_ne_zero (ne_of_gt hk1) (div_ne_zero hVne (by norm_num))
  have hk1ne : ((k : ℚ) + 1) ≠ 0 := ne_of_gt hk1
  have hrat : 1 / (((k : ℚ) + 1) * (V / 20000000) / (((k + 1 : ℕ) : ℚ) * (5/100))) =
      1000000 / V := by
    push_cast
    field_simp
    ring
  have hok : veVco2 s (t0 + ((k : ℚ) + 1) * (1/20)) V = Except.ok ({ s with
      integratedCo := ((k : ℚ) + 1) * (V / 20000000)
      integratedCoPts := k + 1
      integratedCoTime := dequeAppend 5 s.integratedCoTime (t0 + ((k : ℚ) + 1) * (1/20))
      veVco2Val := dequeAppend 500 s.veVco2Val (1000000 / V) }, 1000000 / V) := by
    simp only [veVco2]
    rw [if_pos (show V > s.coTrig by rw [hTrig]; exact hV)]
    rw [hinteg, hPts, if_neg hne0, hrat]
  refine ⟨_, hok, ?_, rfl, rfl, ?_, ?_⟩
  · simpa using hTrig
  · simp [lastD_dequeAppend]
  · simp [dequeAppend]

/-- Running `N` uniformly spaced constant samples from any state
satisfying the closed-form invariant at index `k` succeeds and returns
`10^6 / V` for every sample. -/
theorem runCo_uniform_aux (c V t0 : ℚ) (hV0 : 0 < V) (hV : c < V) :
    ∀ (N k : ℕ) (s : UIState), s.coTrig = c →
      s.integratedCo = (k : ℚ) * (V / 20000000) →
      s.integratedCoPts = k →
      lastD s.integratedCoTime = t0 + (k : ℚ) * (1/20) →
      s.integratedCoTime ≠ [] →
      ∃ s2, runCo s (uniformSeqFrom t0 V k N) =
        Except.ok (s2, List.replicate N (1000000 / V)) := by
  intro N
  induction N with
  | zero =>
    intro k s _ _ _ _ _
    exact ⟨s, rfl⟩
  | succ N2 ih =>
    intro k s hTrig hInt hPts hLast hne
    obtain ⟨s2, hok, hTrig2, hInt2, hPts2, hLast2, hne2⟩ :=
      veVco2_uniform_step c V t0 hV0 hV k s hTrig hInt hPts hLast hne
    obtain ⟨s3, hrun⟩ := ih (k + 1) s2 hTrig2 (by push_cast; exact hInt2) hPts2
      (by push_cast; exact hLast2) hne2
    refine ⟨s3, ?_⟩
    rw [uniformSeqFrom_succ]
    simp only [runCo, hok, hrun, List.replicate_succ]

/-- C2: from a fresh integration state with trigger `c`, processing `N ≥ 1`
CO2 samples of constant value `V > c` at uniform `0.05` s spacing returns
`10^6 / V` for every sample — in particular the value returned after the
`N`-th sample is `1 / ((V/10^6 * 0.05 * N) / (N * 0.05)) = 10^6 / V`. -/
theorem veVco2_uniform_closed_form (c V t0 : ℚ) (hc : 0 ≤ c) (hV : c < V)
    (N : ℕ) (hN : 1 ≤ N) :
    ∃ s2, runCo { initState t0 with coTrig := c } (uniformSeq t0 V N) =
        Except.ok (s2, List.replicate N (1000000 / V)) ∧
      (List.replicate N ((1000000 : ℚ) / V)).getLast? = some (1000000 / V) := by
  have hV0 : 0 < V := lt_of_le_of_lt hc hV
  obtain ⟨s2, hrun⟩ := runCo_uniform_aux c V t0 hV0 hV N 0
    { initState t0 with coTrig := c }
    (by simp)
    (by simp [initState])
    (by simp [initState])
    (by simp [initState, lastD])
    (by simp [initState])
  refine ⟨s2, by rwa [uniformSeq], ?_⟩
  cases N with
  | zero => omega
  | succ N2 => simp [List.getLast?_replicate]

/-- Witness for C2 at `V = 50000`, `N = 10` (the spec's numeric check:
the ratio is `10^6 / 50000 = 20`). -/
theorem veVco2_uniform_closed_form_witness :
    (0 : ℚ) ≤ 20000 ∧ (20000 : ℚ) < 50000 ∧ (1 : ℕ) ≤ 10 ∧
    ∃ s2, runCo { initState 0 with coTrig := 20000 } (uniformSeq 0 50000 10) =
        Except.ok (s2, List.replicate 10 (1000000 / 50000)) ∧
      (List.replicate 10 ((1000000 : ℚ) / 50000)).getLast? = some (1000000 / 50000) :=
  ⟨by norm_num, by norm_num, by norm_num,
    veVco2_uniform_closed_form 20000 50000 0 (by norm_num) (by norm_num) 10
      (by norm_num)⟩

/-- `volBreath` reads only `floTrig`, `volFlag` and `curVol`: two states
agreeing on those three fields emit the same volume and keep agreeing. -/
theorem volBreath_flow_congr (s1 s2 : UIState) (n : ℚ)
    (hft : s1.floTrig = s2.floTrig) (hvf : s1.volFlag = s2.volFlag)
    (hcv : s1.curVol = s2.curVol) :
    (volBreath s1 n).2 = (volBreath s2 n).2 ∧
    (volBreath s1 n).1.floTrig = (volBreath s2 n).1.floTrig ∧
    (volBreath s1 n).1.volFlag = (volBreath s2 n).1.volFlag ∧
    (volBreath s1 n).1.curVol = (volBreath s2 n).1.curVol := by
  by_cases h1 : s2.volFlag = false <;> by_cases h2 : n ≥ s2.floTrig <;>
    simp [volBreath, h1, h2, hft, hvf, hcv]

/-- Emitted breath volumes depend only on `floTrig`, `volFlag`, `curVol`. -/
theorem runFlow_flow_congr (ns : List ℚ) : ∀ (s1 s2 : UIState),
    s1.floTrig = s2.floTrig → s1.volFlag = s2.volFlag → s1.curVol = s2.curVol →
    (runFlow s1 ns).2 = (runFlow s2 ns).2 := by
  induction ns with
  | nil => intro s1 s2 _ _ _; rfl
  | cons n rest ih =>
    intro s1 s2 hft hvf hcv
    obtain ⟨hemit, hft2, hvf2, hcv2⟩ := volBreath_flow_congr s1 s2 n hft hvf hcv
    simp only [runFlow]
    rw [hemit, ih (volBreath s1 n).1 (volBreath s2 n).1 hft2 hvf2 hcv2]

/-- C7 (counterexample): `resetAvg` does not clear the partially
accumulated breath buffer `curVol`. Open a breath with one sample of 15,
reset, then run `[15, 5]`: the post-reset run emits a breath of volume
`1/20`, while the same sequence on a fresh engine emits `1/40` — residual
state leaks across the reset. -/
theorem resetAvg_leaks_curVol :
    (runFlow (resetAvg (runFlow (initState 0) [15]).1) [15, 5]).2 = [1/20] ∧
    (runFlow (initState 0) [15, 5]).2 = [1/40] ∧
    ((1 : ℚ)/20 = 1/40 → False) := by
  refine ⟨?_, ?_, by norm_num⟩ <;>
    norm_num [runFlow, volBreath, resetAvg, initState, dequeAppend]

/-- C7 (amended): `resetAvg` restores the breath history, peak, integral,
point count and breath flag to their fresh values, but leaves `curVol`
and the CO2 timestamp history untouched; consequently reset followed by a
flow sample sequence reproduces a fresh engine's emitted breath volumes
exactly when the retained accumulator equals the fresh `[0]` (and the
flow trigger is the default 10). -/
theorem resetAvg_roundtrip_flow (s : UIState) (t0 : ℚ) (ns : List ℚ)
    (hft : s.floTrig = 10) (hcv : s.curVol = [0]) :
    (runFlow (resetAvg s) ns).2 = (runFlow (initState t0) ns).2 ∧
    (resetAvg s).curVol = s.curVol ∧
    (resetAvg s).integratedCoTime = s.integratedCoTime ∧
    (resetAvg s).volBreathsQ = [] ∧
    (resetAvg s).maxCo2Val = 0 ∧
    (resetAvg s).integratedCo = 0 ∧
    (resetAvg s).integratedCoPts = 0 ∧
    (resetAvg s).volFlag = false := by
  refine ⟨?_, rfl, rfl, rfl, rfl, rfl, rfl, rfl⟩
  exact runFlow_flow_congr ns (resetAvg s) (initState t0)
    (by simp [resetAvg, initState, hft])
    (by simp [resetAvg, initState])
    (by simp [resetAvg, initState, hcv])

/-- Witness for C7's amended claim: a state at a different construction
time with untouched accumulator round-trips on `[15, 5]`. -/
theorem resetAvg_roundtrip_flow_witness :
    (runFlow (resetAvg (initState 5)) [15, 5]).2 = (runFlow (initState 0) [15, 5]).2 ∧
    (resetAvg (initState 5)).curVol = (initState 5).curVol ∧
    (resetAvg (initState 5)).integratedCoTime = (initState 5).integratedCoTime ∧
    (resetAvg (initState 5)).volBreathsQ = [] ∧
    (resetAvg (initState 5)).maxCo2Val = 0 ∧
    (resetAvg (initState 5)).integratedCo = 0 ∧
    (resetAvg (initState 5)).integratedCoPts = 0 ∧
    (resetAvg (initState 5)).volFlag = false :=
  resetAvg_roundtrip_flow (initState 5) 0 [15, 5] rfl rfl

/-- Length of a bounded-deque append (capacity at least one). -/
theorem length_dequeAppend (cap : ℕ) (hcap : 1 ≤ cap) (xs : List ℚ) (x : ℚ) :
    (dequeAppend cap xs x).length = min (xs.length + 1) cap := by
  simp [dequeAppend]
  omega

/-- Folding bounded-deque appends retains exactly the most recent `cap`
elements: the FIFO-eviction closed form. -/
theorem foldl_dequeAppend (cap : ℕ) (hcap : 1 ≤ cap) :
    ∀ (vs acc : List ℚ), acc.length ≤ cap →
      vs.foldl (dequeAppend cap) acc =
        (acc ++ vs).drop (acc.length + vs.length - cap) := by
  intro vs
  induction vs with
  | nil =>
    intro acc hacc
    simp only [List.foldl_nil, List.append_nil, List.length_nil, Nat.add_zero]
    rw [Nat.sub_eq_zero_of_le hacc, List.drop_zero]
  | cons v rest ih =>
    intro acc hacc
    rw [List.foldl_cons, ih (dequeAppend cap acc v)
      (by rw [length_dequeAppend cap hcap]; omega)]
    rcases Nat.lt_or_ge acc.length cap with hlt | hge
    · have hk : acc.length + 1 - cap = 0 := by omega
      simp only [dequeAppend, hk, List.drop_zero]
      rw [List.append_assoc, List.singleton_append]
      congr 1
      simp only [List.length_append, List.length_cons, List.length_nil]
      omega
    · have heq : acc.length = cap := le_antisymm hacc hge
      have hk : acc.length + 1 - cap = 1 := by omega
      simp only [dequeAppend, hk]
      rw [List.append_assoc, List.singleton_append,
        List.drop_append_eq_append_drop, List.drop_append_eq_append_drop,
        List.drop_drop]
      congr 1
      · congr 1
        simp only [List.length_append, List.length_drop, List.length_cons,
          List.length_nil]
        omega
      · congr 1
        simp only [List.length_append, List.length_drop, List.length_cons,
          List.length_nil]
        omega

/-- C8: the breath-volume history is a capacity-100 FIFO (`volBreathsQ`),
each close appends the just-finished volume, the displayed session
average is the arithmetic mean of the retained (most recent
`min n 100`) volumes, and the empty history displays `0`, not an error. -/
theorem volBreathsQ_average (vs : List ℚ) :
    vs.foldl (dequeAppend 100) [] = vs.drop (vs.length - 100) ∧
    (vs.foldl (dequeAppend 100) []).length = min vs.length 100 ∧
    (vs ≠ [] → avgOfQueue (vs.foldl (dequeAppend 100) []) =
      (vs.drop (vs.length - 100)).sum / ((min vs.length 100 : ℕ) : ℚ)) ∧
    avgOfQueue [] = 0 ∧
    (∀ s w, s.volFlag = true → w < s.floTrig →
      (volBreath s w).1.volBreathsQ = dequeAppend 100 s.volBreathsQ s.curVol.sum) := by
  have hfold : vs.foldl (dequeAppend 100) [] = vs.drop (vs.length - 100) := by
    rw [foldl_dequeAppend 100 (by norm_num) vs [] (by simp)]
    simp
  have hlen : (vs.foldl (dequeAppend 100) []).length = min vs.length 100 := by
    rw [hfold, List.length_drop]
    omega
  refine ⟨hfold, hlen, ?_, by simp [avgOfQueue], ?_⟩
  · intro hne
    have hpos : 0 < (vs.foldl (dequeAppend 100) []).length := by
      rw [hlen]
      have := List.length_pos.mpr hne
      omega
    unfold avgOfQueue
    rw [if_neg (List.length_pos.mp hpos), hlen, hfold]
  · intro s w hflag hlt
    simp [volBreath, hflag, not_le.mpr hlt]

/-- Witness for C8: volumes `[1, 2, 3]` average to `2`, and a close step
appends through the capacity-100 deque. -/
theorem volBreathsQ_average_witness :
    avgOfQueue (([1, 2, 3] : List ℚ).foldl (dequeAppend 100) []) =
      (([1, 2, 3] : List ℚ).drop (([1, 2, 3] : List ℚ).length - 100)).sum /
        ((min ([1, 2, 3] : List ℚ).length 100 : ℕ) : ℚ) ∧
    (volBreath { initState 0 with volFlag := true, curVol := [2] } 5).1.volBreathsQ =
      dequeAppend 100
        ({ initState 0 with volFlag := true, curVol := [2] } : UIState).volBreathsQ
        ({ initState 0 with volFlag := true, curVol := [2] } : UIState).curVol.sum :=
  ⟨(volBreathsQ_average [1, 2, 3]).2.2.1 (by simp),
   (volBreathsQ_average []).2.2.2.2
     { initState 0 with volFlag := true, curVol := [2] } 5 rfl
     (by norm_num [initState])⟩

/-- `runFlow` splits over list concatenation. -/
theorem runFlow_append (l1 l2 : List ℚ) : ∀ s : UIState,
    runFlow s (l1 ++ l2) =
      ((runFlow (runFlow s l1).1 l2).1,
        (runFlow s l1).2 ++ (runFlow (runFlow s l1).1 l2).2) := by
  induction l1 with
  | nil => intro s; simp [runFlow]
  | cons n rest ih =>
    intro s
    simp only [List.cons_append, runFlow, List.append_eq]
    rw [ih (volBreath s n).1]
    simp [List.append_assoc]

/-- Opening step: from a closed state an at/above-trigger sample opens a
breath and appends its contribution twice (the two `if` blocks). -/
theorem volBreath_opening (s : UIState) (v : ℚ) (hflag : s.volFlag = false)
    (hv : v ≥ s.floTrig) :
    volBreath s v = ({ s with
      curVol := dequeAppend 500 (dequeAppend 500 s.curVol (v * (5/6000)))
        (v * (5/6000))
      volFlag := true }, none) := by
  simp [volBreath, hflag, hv]

/-- Closing step: from an open state a below-trigger sample emits the
accumulated sum, empties `curVol` and clears the flag. -/
theorem volBreath_closing (s : UIState) (w : ℚ) (hflag : s.volFlag = true)
    (hw : w < s.floTrig) :
    volBreath s w = ({ s with
      volBreathsQ := dequeAppend 100 s.volBreathsQ s.curVol.sum
      curVol := []
      volFlag := false }, some s.curVol.sum) := by
  simp [volBreath, hflag, not_le.mpr hw]

/-- While a breath is open, at/above-trigger samples only fold their
contributions into `curVol`; nothing is emitted. -/
theorem runFlow_open_above (vs : List ℚ) : ∀ s : UIState, s.volFlag = true →
    (∀ v ∈ vs, v ≥ s.floTrig) →
    runFlow s vs = ({ s with curVol :=
      (vs.map (fun v => v * (5/6000))).foldl (dequeAppend 500) s.curVol }, []) := by
  induction vs with
  | nil => intro s hflag _; rfl
  | cons v rest ih =>
    intro s hflag hab
    have hstep : volBreath s v =
        ({ s with curVol := dequeAppend 500 s.curVol (v * (5/6000)) }, none) := by
      simp [volBreath, hflag, hab v (List.mem_cons_self v rest)]
    have hrest : ∀ x ∈ rest, x ≥ s.floTrig :=
      fun x hx => hab x (List.mem_cons_of_mem v hx)
    simp only [runFlow, hstep, List.map_cons, List.foldl_cons]
    rw [ih { s with curVol := dequeAppend 500 s.curVol (v * (5/6000)) } hflag hrest]
    simp

/-- C10: `curVol` is a capacity-500 FIFO buffer, so a breath of more than
500 at/above-trigger samples closed by a below-trigger sample emits the
sum of only the 500 most recent per-sample contributions — earlier
contributions are silently evicted. -/
theorem volBreath_capacity_eviction (s : UIState) (vs : List ℚ) (w : ℚ)
    (hflag : s.volFlag = false) (hlen : s.curVol.length ≤ 500)
    (hab : ∀ v ∈ vs, v ≥ s.floTrig) (hw : w < s.floTrig)
    (hN : 500 < vs.length) :
    (runFlow s (vs ++ [w])).2 =
      [((vs.drop (vs.length - 500)).map (fun x => x * (5/6000))).sum] := by
  cases vs with
  | nil => simp at hN
  | cons v rest =>
    have hv : v ≥ s.floTrig := hab v (List.mem_cons_self v rest)
    have hrest : ∀ x ∈ rest, x ≥ s.floTrig :=
      fun x hx => hab x (List.mem_cons_of_mem v hx)
    have hrlen : 500 ≤ rest.length := by
      simp only [List.length_cons] at hN
      omega
    have hopen := volBreath_opening s v hflag hv
    have hmid := runFlow_open_above rest
      { s with
        curVol := dequeAppend 500 (dequeAppend 500 s.curVol (v * (5/6000)))
          (v * (5/6000))
        volFlag := true } rfl hrest
    have hfirst : runFlow s (v :: rest) =
        ({ s with
            curVol := (rest.map (fun x => x * (5/6000))).foldl (dequeAppend 500)
              (dequeAppend 500 (dequeAppend 500 s.curVol (v * (5/6000)))
                (v * (5/6000)))
            volFlag := true }, []) := by
      simp only [runFlow, hopen]
      rw [hmid]
      simp
    have hclose := volBreath_closing
      { s with
        curVol := (rest.map (fun x => x * (5/6000))).foldl (dequeAppend 500)
          (dequeAppend 500 (dequeAppend 500 s.curVol (v * (5/6000)))
            (v * (5/6000)))
        volFlag := true } w rfl hw
    have hcur : (rest.map (fun x => x * (5/6000))).foldl (dequeAppend 500)
        (dequeAppend 500 (dequeAppend 500 s.curVol (v * (5/6000)))
          (v * (5/6000))) =
        ((v :: rest).drop ((v :: rest).length - 500)).map
          (fun x => x * (5/6000)) := by
      have h2 : dequeAppend 500 (dequeAppend 500 s.curVol (v * (5/6000)))
          (v * (5/6000)) =
          [v * (5/6000), v * (5/6000)].foldl (dequeAppend 500) s.curVol := rfl
      rw [h2, ← List.foldl_append,
        foldl_dequeAppend 500 (by norm_num) _ s.curVol hlen,
        ← List.append_assoc, List.drop_append_eq_append_drop,
        List.drop_eq_nil_of_le (by simp; omega), List.nil_append]
      have h3 : (v :: rest).length - 500 = (rest.length - 500) + 1 := by
        simp only [List.length_cons]
        omega
      rw [h3, List.drop_succ_cons, List.map_drop]
      simp only [List.length_append, List.length_map, List.length_cons,
        List.length_nil]
      exact congrFun (congrArg List.drop (by omega)) _
    rw [runFlow_append (v :: rest) [w] s, hfirst]
    simp only [runFlow, hclose]
    simp [hcur]

/-- Witness for C10: a 501-sample breath at value 15 followed by a
closing sample of 5 emits the sum over the 500 most recent samples. -/
theorem volBreath_capacity_eviction_witness :
    (runFlow (initState 0) (List.replicate 501 15 ++ [5])).2 =
      [(((List.replicate 501 (15 : ℚ)).drop
          ((List.replicate 501 (15 : ℚ)).length - 500)).map
        (fun x => x * (5/6000))).sum] :=
  volBreath_capacity_eviction (initState 0) (List.replicate 501 15) 5
    rfl
    (by simp [initState])
    (by
      intro x hx
      rw [List.eq_of_mem_replicate hx]
      norm_num [initState])
    (by norm_num [initState])
    (by rw [List.length_replicate]; omega)
